import Mathlib

/-!
Verification development for the bevy_pigeon component-replication core.

The inbound/outbound pipeline logic is embedded from `src/app.rs`
(`get_latest_msg`, `comp_recv`, `send_on_event`, `sync_comp`,
`try_sync_comp`) and the codec conversions from `src/types/misc.rs`.
Passive data types that the repository declares outside the provided
sources (`crate::sync`: `NetComp`, `NetEntity`, `SNetDir`, `CNetDir`;
the transport's `CIdSpec` and message envelope) are modelled from the
specification, as marked on each definition.
-/

namespace BevyPigeon

/-- Modelled from the spec: the Recipient Specification of section 3
(the transport's `CIdSpec`, not part of the provided sources): one of
All, None, Include(set of peer ids), Except(set of peer ids). -/
inductive CIdSpec where
  | all
  | none
  | includeIds (ids : List Nat)
  | exceptIds (ids : List Nat)
  deriving DecidableEq, Repr

/-- Modelled from the spec: matches(spec, id) is a pure predicate over
peer-connection identifiers. -/
def CIdSpec.matches : CIdSpec → Nat → Bool
  | .all, _ => true
  | .none, _ => false
  | .includeIds l, id => l.contains id
  | .exceptIds l, id => !(l.contains id)

/-- Modelled from the spec: two specs overlap if some identifier is
accepted by both; decidable case-wise without enumerating the id space
(the identifier space is unbounded, so the complement of a finite
Except list is never empty). -/
def CIdSpec.overlaps : CIdSpec → CIdSpec → Bool
  | .none, _ => false
  | _, .none => false
  | .all, .all => true
  | .all, .includeIds l => !l.isEmpty
  | .includeIds l, .all => !l.isEmpty
  | .all, .exceptIds _ => true
  | .exceptIds _, .all => true
  | .includeIds a, .includeIds b => a.any b.contains
  | .includeIds a, .exceptIds b => a.any (fun x => !(b.contains x))
  | .exceptIds b, .includeIds a => a.any (fun x => !(b.contains x))
  | .exceptIds _, .exceptIds _ => true

/-- Modelled from the spec: the authority-role Directional Policy
(`SNetDir` of `crate::sync`, not in the provided sources):
None, To(spec), From(spec) or ToFrom(to spec, from spec). -/
inductive SNetDir where
  | none
  | to (spec : CIdSpec)
  | from_ (spec : CIdSpec)
  | toFrom (to_spec from_spec : CIdSpec)
  deriving DecidableEq, Repr

/-- Modelled from the spec: the accessor to() returning the send spec
when present. -/
def SNetDir.to? : SNetDir → Option CIdSpec
  | .none => Option.none
  | .to s => Option.some s
  | .from_ _ => Option.none
  | .toFrom s _ => Option.some s

/-- Modelled from the spec: the accessor from() returning the
acceptance spec when present. -/
def SNetDir.from? : SNetDir → Option CIdSpec
  | .none => Option.none
  | .to _ => Option.none
  | .from_ s => Option.some s
  | .toFrom _ s => Option.some s

/-- Modelled from the spec: the peer-role Directional Policy
(`CNetDir` of `crate::sync`): None, To or From; a peer only talks to
the single authority, so no spec is carried. -/
inductive CNetDir where
  | none
  | to
  | from_
  deriving DecidableEq, Repr

/-- Modelled from the spec: the Entity Identity network identifier
(`NetEntity` of `crate::sync`), a stable unsigned integer. -/
structure NetEntity where
  id : Nat
  deriving DecidableEq, Repr

/-- Modelled from the spec: the Replication Record (`NetComp<T, M>` of
`crate::sync`): the directional policies and the last-applied recency
marker (absent until something is applied). -/
structure NetComp where
  s_dir : SNetDir
  c_dir : CNetDir
  last : Option Nat
  deriving DecidableEq, Repr

/-- Modelled from the spec: a received Update Envelope as seen by
`comp_recv` (the transport's `NetMsg` wrapping `NetCompMsg<M>`):
sender connection id `cid`, optional `send_time`, entity id, payload. -/
structure NetMsg (M : Type) where
  cid : Nat
  time : Option Nat
  id : Nat
  msg : M
  deriving DecidableEq, Repr

/-- The loop body of `get_latest_msg` in `src/app.rs`: a timestamped
entry becomes the candidate only when its time strictly exceeds the
running floor, and then raises the floor; a timestamp-less entry
unconditionally becomes the candidate without touching the floor. -/
def latest_step {M : Type} (acc : Nat × Option (NetMsg M)) (m : NetMsg M) :
    Nat × Option (NetMsg M) :=
  match m.time with
  | Option.some time => if time > acc.1 then (time, Option.some m) else acc
  | Option.none => (acc.1, Option.some m)

/-- Embeds `get_latest_msg` of `src/app.rs`: among batch entries whose
sender matches `spec` and whose entity id is `id`, fold `latest_step`
in batch order starting from the floor `current.unwrap_or(0)` and no
candidate; return the candidate. -/
def get_latest_msg {M : Type} (msgs : List (NetMsg M)) (current : Option Nat)
    (spec : CIdSpec) (id : Nat) : Option (NetMsg M) :=
  ((msgs.filter (fun m => spec.matches m.cid && m.id == id)).foldl
    latest_step
    (current.getD 0, (Option.none : Option (NetMsg M)))).2

/-- Observable events of one inbound per-entity step: an update being
applied to the component, or the overlapping-spec warning being logged. -/
inductive RecvEvent (M : Type) where
  | applied (m : NetMsg M)
  | warnOverlap (id : Nat)
  deriving DecidableEq, Repr

/-- Embeds the server branch of `comp_recv` in `src/app.rs` for one
entity of the query: when the policy has a from() spec, select via
`get_latest_msg`, set `last` to the winner's time field and write the
converted payload; afterwards, when the policy is ToFrom with
overlapping specs, log the overlap warning. The third component records
the emitted events in program order. -/
def comp_recv_server_entity {T M : Type} (into : M → T)
    (msgs : List (NetMsg M)) (net_e : NetEntity) (net_c : NetComp)
    (comp : T) : NetComp × T × List (RecvEvent M) :=
  let step :=
    match net_c.s_dir.from? with
    | Option.some spec =>
      match get_latest_msg msgs net_c.last spec net_e.id with
      | Option.some valid_msg =>
        ({ net_c with last := valid_msg.time }, into valid_msg.msg,
          [RecvEvent.applied valid_msg])
      | Option.none => (net_c, comp, [])
    | Option.none => (net_c, comp, [])
  match net_c.s_dir with
  | SNetDir.toFrom to_spec from_spec =>
    if to_spec.overlaps from_spec then
      (step.1, step.2.1, step.2.2 ++ [RecvEvent.warnOverlap net_e.id])
    else step
  | _ => step

/-- Embeds the client branch of `comp_recv` in `src/app.rs` for one
entity of the query: when the direction is From, select via
`get_latest_msg` with the All spec, set `last` and write the converted
payload; then (second block of the source) overwrite the component with
the last received message for this entity id, if any. -/
def comp_recv_client_entity {T M : Type} (into : M → T)
    (msgs : List (NetMsg M)) (net_e : NetEntity) (net_c : NetComp)
    (comp : T) : NetComp × T :=
  if net_c.c_dir = CNetDir.from_ then
    let step :=
      match get_latest_msg msgs net_c.last CIdSpec.all net_e.id with
      | Option.some valid_msg =>
        ({ net_c with last := valid_msg.time }, into valid_msg.msg)
      | Option.none => (net_c, comp)
    match (msgs.filter (fun m => m.id == net_e.id)).getLast? with
    | Option.some valid_msg => (step.1, into valid_msg.msg)
    | Option.none => step
  else (net_c, comp)

/-- Iterates the client per-entity step over successive tick batches. -/
def comp_recv_client_ticks {T M : Type} (into : M → T) (net_e : NetEntity)
    (batches : List (List (NetMsg M))) (st : NetComp × T) : NetComp × T :=
  batches.foldl (fun st msgs =>
    comp_recv_client_entity into msgs net_e st.1 st.2) st

/-- Iterates the server per-entity step over successive tick batches,
keeping the concatenated event trace. -/
def comp_recv_server_ticks {T M : Type} (into : M → T) (net_e : NetEntity)
    (batches : List (List (NetMsg M))) (st : NetComp × T × List (RecvEvent M)) :
    NetComp × T × List (RecvEvent M) :=
  batches.foldl (fun st msgs =>
    let r := comp_recv_server_entity into msgs net_e st.1 st.2.1
    (r.1, r.2.1, st.2.2 ++ r.2.2)) st

/-- An outbound envelope handed to the transport: recipient connection
id, entity id, converted payload. -/
structure Envelope (M : Type) where
  cid : Nat
  id : Nat
  msg : M
  deriving DecidableEq, Repr

/-- Modelled from the spec: the transport's send_spec fan-out used by
the authority (section 4.4 step 2): one envelope to every connected
peer whose identifier matches the to() spec. -/
def send_spec {M : Type} (connected : List Nat) (spec : CIdSpec)
    (id : Nat) (msg : M) : List (Envelope M) :=
  (connected.filter (fun cid => spec.matches cid)).map
    (fun cid => ⟨cid, id, msg⟩)

/-- Embeds the server branch of `send_on_event` in `src/app.rs`: the
event-reader queue is read (which drains it whatever its content); when
it was empty nothing is sent; otherwise every queried entity whose
policy has a to() spec is sent to the matching connected peers. Returns
the sent envelopes and the queue as left after the read. -/
def send_on_event_server {T M : Type} (intoM : T → M) (events : List Unit)
    (connected : List Nat) (q : List (NetEntity × NetComp × T)) :
    List (Envelope M) × List Unit :=
  if events.length == 0 then ([], [])
  else
    (q.foldl (fun acc e =>
      match e.2.1.s_dir.to? with
      | Option.some to_spec =>
        acc ++ send_spec connected to_spec e.1.id (intoM e.2.2)
      | Option.none => acc) [], [])

/-- Embeds the client branch of `send_on_event` in `src/app.rs`: after
the draining read, every queried entity whose peer direction is To is
sent to the authority (one envelope carrying the entity id and
payload). -/
def send_on_event_client {T M : Type} (intoM : T → M) (events : List Unit)
    (q : List (NetEntity × NetComp × T)) : List (Nat × M) × List Unit :=
  if events.length == 0 then ([], [])
  else
    (q.foldl (fun acc e =>
      match e.2.1.c_dir with
      | CNetDir.to => acc ++ [(e.1.id, intoM e.2.2)]
      | _ => acc) [], [])

/-- The transport's registration error for a duplicate registration
(carrier_pigeon's `MsgRegError`, modelled from the spec's configuration
error of section 7). -/
inductive MsgRegError where
  | typeAlreadyRegistered
  deriving DecidableEq, Repr

/-- The transport's message table, modelled from the spec: the set of
registered envelope type identifiers. -/
structure MsgTable where
  regs : List String
  deriving DecidableEq, Repr

/-- Modelled from the spec: registering a type already present is a
configuration error; otherwise the type is added. -/
def MsgTable.register (t : MsgTable) (ty : String) :
    Except MsgRegError MsgTable :=
  if t.regs.contains ty then Except.error MsgRegError.typeAlreadyRegistered
  else Except.ok ⟨t.regs ++ [ty]⟩

/-- The registration key used by `sync_comp`: the envelope type
NetCompMsg of the message type. -/
def netCompMsgKey (tyM : String) : String := "NetCompMsg<" ++ tyM ++ ">"

/-- The app as touched by `sync_comp`: its registered event types and
its added systems. -/
structure AppModel where
  events : List String
  systems : List String
  deriving DecidableEq, Repr

/-- The event and systems additions shared by all `sync_comp` variants
in `src/app.rs`. -/
def add_sync_systems (app : AppModel) (tyT tyM : String) : AppModel :=
  { events := app.events ++ ["SyncC<" ++ tyT ++ ">"],
    systems := app.systems ++
      ["send_on_event<" ++ tyT ++ ", " ++ tyM ++ ">",
       "comp_send<" ++ tyT ++ ", " ++ tyM ++ ">",
       "comp_recv<" ++ tyT ++ ", " ++ tyM ++ ">"] }

/-- Embeds `try_sync_comp` of `src/app.rs`: register NetCompMsg of M
first; on a registration error return it with the app and table as they
were (the ? operator returns before any addition); on success add the
event and the three systems. -/
def try_sync_comp (app : AppModel) (table : MsgTable) (tyT tyM : String) :
    AppModel × MsgTable × Option MsgRegError :=
  match table.register (netCompMsgKey tyM) with
  | Except.error e => (app, table, Option.some e)
  | Except.ok t => (add_sync_systems app tyT tyM, t, Option.none)

/-- Embeds `sync_comp` of `src/app.rs`: same as `try_sync_comp` but the
registration result is unwrapped, so a duplicate registration panics
(modelled as the error branch of Except). -/
def sync_comp (app : AppModel) (table : MsgTable) (tyT tyM : String) :
    Except MsgRegError (AppModel × MsgTable) :=
  match table.register (netCompMsgKey tyM) with
  | Except.error e => Except.error e
  | Except.ok t => Except.ok (add_sync_systems app tyT tyM, t)

/-- The runtime Visibility attribute (the host engine's enum, with the
variants matched exhaustively in `src/types/misc.rs`). -/
inductive Visibility where
  | inherited
  | hidden
  | visible
  deriving DecidableEq, Repr

/-- The network-able version of Visibility from `src/types/misc.rs`. -/
inductive NetVisibility where
  | inherited
  | hidden
  | visible
  deriving DecidableEq, Repr

/-- Embeds the From Visibility impl for NetVisibility. -/
def NetVisibility.ofVisibility : Visibility → NetVisibility
  | Visibility.inherited => NetVisibility.inherited
  | Visibility.hidden => NetVisibility.hidden
  | Visibility.visible => NetVisibility.visible

/-- Embeds the From NetVisibility impl for Visibility. -/
def Visibility.ofNetVisibility : NetVisibility → Visibility
  | NetVisibility.inherited => Visibility.inherited
  | NetVisibility.hidden => Visibility.hidden
  | NetVisibility.visible => Visibility.visible

/-- The runtime EulerRot attribute (the host math library's enum, with
the variants matched exhaustively in `src/types/misc.rs`). -/
inductive EulerRot where
  | zyx | zxy | yxz | yzx | xyz | xzy
  deriving DecidableEq, Repr

/-- The network-able version of EulerRot from `src/types/misc.rs`. -/
inductive NetEulerRot where
  | zyx | zxy | yxz | yzx | xyz | xzy
  deriving DecidableEq, Repr

/-- Embeds the From EulerRot impl for NetEulerRot. -/
def NetEulerRot.ofEulerRot : EulerRot → NetEulerRot
  | EulerRot.zyx => NetEulerRot.zyx
  | EulerRot.zxy => NetEulerRot.zxy
  | EulerRot.yxz => NetEulerRot.yxz
  | EulerRot.yzx => NetEulerRot.yzx
  | EulerRot.xyz => NetEulerRot.xyz
  | EulerRot.xzy => NetEulerRot.xzy

/-- Embeds the From NetEulerRot impl for EulerRot. -/
def EulerRot.ofNetEulerRot : NetEulerRot → EulerRot
  | NetEulerRot.zyx => EulerRot.zyx
  | NetEulerRot.zxy => EulerRot.zxy
  | NetEulerRot.yxz => EulerRot.yxz
  | NetEulerRot.yzx => EulerRot.yzx
  | NetEulerRot.xyz => EulerRot.xyz
  | NetEulerRot.xzy => EulerRot.xzy

/-- The runtime Name attribute (the host engine's string-carrying
component; its stored string is what `as_str` exposes and `new`
consumes). -/
structure Name where
  name : String
  deriving DecidableEq, Repr

/-- The network-able version of Name from `src/types/misc.rs`. -/
structure NetName where
  name : String
  deriving DecidableEq, Repr

/-- Embeds the From Name impl for NetName (copies `as_str`). -/
def NetName.ofName (o : Name) : NetName := ⟨o.name⟩

/-- Embeds the From NetName impl for Name (`Name::new`). -/
def Name.ofNetName (o : NetName) : Name := ⟨o.name⟩

/-- Recognizes the overlap warning among the inbound events. -/
def RecvEvent.isWarn {M : Type} : RecvEvent M → Bool
  | RecvEvent.warnOverlap _ => true
  | RecvEvent.applied _ => false

/-- The envelopes one queried entity contributes to a forced resync in
the server role: the send_spec fan-out when its policy has a to() spec,
nothing otherwise. -/
def event_sends {T M : Type} (intoM : T → M) (connected : List Nat)
    (e : NetEntity × NetComp × T) : List (Envelope M) :=
  match e.2.1.s_dir.to? with
  | Option.some to_spec => send_spec connected to_spec e.1.id (intoM e.2.2)
  | Option.none => []

/-- The envelopes one queried entity contributes to a forced resync in
the client role: one envelope to the authority when its peer direction
is To, nothing otherwise. -/
def event_sends_client {T M : Type} (intoM : T → M)
    (e : NetEntity × NetComp × T) : List (Nat × M) :=
  match e.2.1.c_dir with
  | CNetDir.to => [(e.1.id, intoM e.2.2)]
  | _ => []

/-! Helper lemmas about the recency-resolution fold. -/

/-- Invariant of the `get_latest_msg` loop: the floor never drops below
its initial value, and a timestamped candidate's time lies strictly
above the initial floor and at most at the current floor. -/
theorem latest_step_inv {M : Type} (l : List (NetMsg M)) (init : Nat) :
    ∀ acc : Nat × Option (NetMsg M), init ≤ acc.1 →
      (∀ m t, acc.2 = Option.some m → m.time = Option.some t →
        init < t ∧ t ≤ acc.1) →
      init ≤ (l.foldl latest_step acc).1 ∧
        ∀ m t, (l.foldl latest_step acc).2 = Option.some m →
          m.time = Option.some t →
          init < t ∧ t ≤ (l.foldl latest_step acc).1 := by
  induction l with
  | nil => exact fun acc h1 h2 => ⟨h1, h2⟩
  | cons x xs ih =>
    intro acc h1 h2
    simp only [List.foldl_cons]
    cases hx : x.time with
    | none =>
      have hstep : latest_step acc x = (acc.1, Option.some x) := by
        simp [latest_step, hx]
      rw [hstep]
      refine ih (acc.1, Option.some x) h1 ?_
      intro m t hm ht
      cases hm
      rw [hx] at ht
      exact absurd ht (by simp)
    | some tm =>
      by_cases htm : tm > acc.1
      · have hstep : latest_step acc x = (tm, Option.some x) := by
          simp [latest_step, hx, htm]
        rw [hstep]
        refine ih (tm, Option.some x) (le_of_lt (lt_of_le_of_lt h1 htm)) ?_
        intro m t hm ht
        cases hm
        rw [hx] at ht
        cases ht
        exact ⟨lt_of_le_of_lt h1 htm, le_rfl⟩
      · have hstep : latest_step acc x = acc := by
          simp [latest_step, hx, htm]
        rw [hstep]
        exact ih acc h1 h2

/-- A timestamped winner of `get_latest_msg` carries a time strictly
greater than the initial floor `current.unwrap_or(0)`. -/
theorem get_latest_msg_time_pos {M : Type} (msgs : List (NetMsg M))
    (current : Option Nat) (spec : CIdSpec) (id : Nat) (m : NetMsg M)
    (t : Nat) (hm : get_latest_msg msgs current spec id = Option.some m)
    (ht : m.time = Option.some t) : current.getD 0 < t := by
  have h := (latest_step_inv
    (msgs.filter (fun m => spec.matches m.cid && m.id == id))
    (current.getD 0)
    (current.getD 0, (Option.none : Option (NetMsg M)))
    le_rfl (by intro m t hm ht; exact absurd hm (by simp))).2 m t hm ht
  exact h.1

/-- When every scanned entry is timestamp-less, the fold's candidate is
the last entry (or the starting candidate when the list is empty). -/
theorem latest_foldl_all_none {M : Type} (l : List (NetMsg M))
    (h : ∀ m ∈ l, m.time = Option.none) :
    ∀ acc : Nat × Option (NetMsg M),
      (l.foldl latest_step acc).2 =
        match l.getLast? with
        | Option.some m => Option.some m
        | Option.none => acc.2 := by
  induction l with
  | nil => intro acc; rfl
  | cons x xs ih =>
    intro acc
    have hx : x.time = Option.none := h x (List.mem_cons_self x xs)
    have hstep : latest_step acc x = (acc.1, Option.some x) := by
      simp [latest_step, hx]
    simp only [List.foldl_cons, hstep]
    rw [ih (fun m hm => h m (List.mem_cons_of_mem _ hm)) (acc.1, Option.some x)]
    cases xs with
    | nil => rfl
    | cons y ys =>
      rw [List.getLast?_cons_cons]
      have hs : (y :: ys).getLast?.isSome = true :=
        List.getLast?_isSome.mpr (by simp)
      cases hlast : (y :: ys).getLast? with
      | none => rw [hlast] at hs; exact absurd hs (by simp)
      | some z => rfl

/-- When every batch entry is timestamp-less and matches the filter and
the entity, get_latest_msg returns the last entry of the batch. -/
theorem get_latest_msg_all_none {M : Type} (msgs : List (NetMsg M))
    (current : Option Nat) (spec : CIdSpec) (id : Nat) (lastMsg : NetMsg M)
    (hall : ∀ m ∈ msgs, m.time = Option.none ∧
      spec.matches m.cid = true ∧ m.id = id)
    (hlast : msgs.getLast? = Option.some lastMsg) :
    get_latest_msg msgs current spec id = Option.some lastMsg := by
  unfold get_latest_msg
  have hfil : msgs.filter (fun m => spec.matches m.cid && m.id == id) = msgs := by
    apply List.filter_eq_self.mpr
    intro a ha
    obtain ⟨-, h2, h3⟩ := hall a ha
    simp [h2, h3]
  rw [hfil, latest_foldl_all_none msgs (fun m hm => (hall m hm).1), hlast]

/-- Pre-filtering the batch by the acceptance filter does not change
the result of get_latest_msg, since its own scan already filters. -/
theorem get_latest_msg_filter_spec {M : Type} (msgs : List (NetMsg M))
    (current : Option Nat) (spec : CIdSpec) (id : Nat) :
    get_latest_msg (msgs.filter (fun m => spec.matches m.cid))
        current spec id =
      get_latest_msg msgs current spec id := by
  unfold get_latest_msg
  rw [List.filter_filter]
  have : msgs.filter
      (fun a => (spec.matches a.cid && a.id == id) && spec.matches a.cid) =
      msgs.filter (fun a => spec.matches a.cid && a.id == id) := by
    apply List.filter_congr
    intro x _
    cases h : spec.matches x.cid <;> simp [h]
  rw [this]

/-- C1: the claim fails on the code in the client role. With one tick's
batch arriving as U2 (send_time 2, payload 20) then U1 (send_time 1,
payload 10) for entity 7, the claim demands the final value 20 (the
strictly latest send_time); the client branch of comp_recv first applies
the recency-selected U2 (last becomes some 2) but then overwrites the
component with the last-arrived message, leaving U1's payload 10. -/
theorem C1_client_last_arrival_overrides_recency :
    (comp_recv_client_entity (fun m => m)
        [⟨1, Option.some 2, 7, 20⟩, ⟨1, Option.some 1, 7, 10⟩]
        ⟨7⟩ ⟨SNetDir.none, CNetDir.from_, Option.none⟩ 0) =
      (⟨SNetDir.none, CNetDir.from_, Option.some 2⟩, 10) ∧
    (10 : Nat) ≠ 20 := by
  exact ⟨by decide, by decide⟩

/-- C2: the claim fails on the code in the client role. With
last_applied = some 5 and a single stale inbound update (send_time 3 ≤
5, payload 99) for entity 7, the recency selection rejects it (last
stays some 5) yet the client branch's trailing last-arrival block
overwrites the component with the stale payload 99. -/
theorem C2_client_applies_stale_update :
    (comp_recv_client_entity (fun m => m)
        [⟨1, Option.some 3, 7, 99⟩]
        ⟨7⟩ ⟨SNetDir.none, CNetDir.from_, Option.some 5⟩ 0) =
      (⟨SNetDir.none, CNetDir.from_, Option.some 5⟩, 99) ∧
    (3 : Nat) ≤ 5 := by
  exact ⟨by decide, by decide⟩

/-- C4 counterexample: the claim that applying a winning entry never
replaces a present last_applied some(t) with absence fails in both
roles. A timestamp-less entry wins on a record with last_applied =
some 5 and the apply step sets last to the winner's time field, i.e. to
absence, while the entry is applied — in the server branch and in the
client branch alike. -/
theorem C4_counterexample_timestampless_winner_clears_last :
    comp_recv_server_entity (fun m => m) [⟨1, Option.none, 7, 42⟩]
        ⟨7⟩ ⟨SNetDir.from_ CIdSpec.all, CNetDir.none, Option.some 5⟩ 0 =
      (⟨SNetDir.from_ CIdSpec.all, CNetDir.none, Option.none⟩, 42,
        [RecvEvent.applied ⟨1, Option.none, 7, 42⟩]) ∧
    comp_recv_client_entity (fun m => m) [⟨1, Option.none, 7, 42⟩]
        ⟨7⟩ ⟨SNetDir.none, CNetDir.from_, Option.some 5⟩ 0 =
      (⟨SNetDir.none, CNetDir.from_, Option.none⟩, 42) := by
  exact ⟨by decide, by decide⟩

/-- C4 amended: in every replication record, the inbound apply step of
either role sets last_applied to the winning entry's optional send_time
field; when the winner carries a time this strictly exceeds the
previous floor (so timestamped application never decreases it), but a
timestamp-less winner resets last_applied to absent. -/
theorem C4_last_set_to_winner_time {T M : Type} (into : M → T)
    (msgsS msgsC : List (NetMsg M)) (net_e : NetEntity)
    (net_cS net_cC : NetComp) (compS compC : T) (spec : CIdSpec)
    (vmS vmC : NetMsg M)
    (hS : net_cS.s_dir.from? = Option.some spec)
    (hwS : get_latest_msg msgsS net_cS.last spec net_e.id =
      Option.some vmS)
    (hC : net_cC.c_dir = CNetDir.from_)
    (hwC : get_latest_msg msgsC net_cC.last CIdSpec.all net_e.id =
      Option.some vmC) :
    ((comp_recv_server_entity into msgsS net_e net_cS compS).1.last =
        vmS.time ∧
      ∀ t, vmS.time = Option.some t → net_cS.last.getD 0 < t) ∧
    ((comp_recv_client_entity into msgsC net_e net_cC compC).1.last =
        vmC.time ∧
      ∀ t, vmC.time = Option.some t → net_cC.last.getD 0 < t) := by
  refine ⟨⟨?_, ?_⟩, ⟨?_, ?_⟩⟩
  · unfold comp_recv_server_entity
    simp only [hS, hwS]
    split
    · split <;> rfl
    · rfl
  · intro t ht
    exact get_latest_msg_time_pos msgsS net_cS.last spec net_e.id vmS t
      hwS ht
  · unfold comp_recv_client_entity
    simp only [hC, if_true, hwC]
    split <;> rfl
  · intro t ht
    exact get_latest_msg_time_pos msgsC net_cC.last CIdSpec.all net_e.id
      vmC t hwC ht

/-- Witness for C4_last_set_to_winner_time at a concrete input. -/
theorem C4_last_set_to_winner_time_witness :
    ((comp_recv_server_entity (fun (m : Nat) => m)
        [⟨1, Option.some 9, 7, 42⟩] ⟨7⟩
        ⟨SNetDir.from_ CIdSpec.all, CNetDir.none, Option.some 5⟩ 0).1.last =
      Option.some 9 ∧
      ∀ t, Option.some 9 = Option.some t →
        (Option.some 5 : Option Nat).getD 0 < t) ∧
    ((comp_recv_client_entity (fun (m : Nat) => m)
        [⟨1, Option.some 8, 7, 43⟩] ⟨7⟩
        ⟨SNetDir.none, CNetDir.from_, Option.some 5⟩ 0).1.last =
      Option.some 8 ∧
      ∀ t, Option.some 8 = Option.some t →
        (Option.some 5 : Option Nat).getD 0 < t) := by
  exact C4_last_set_to_winner_time (fun (m : Nat) => m)
    [⟨1, Option.some 9, 7, 42⟩] [⟨1, Option.some 8, 7, 43⟩] ⟨7⟩
    ⟨SNetDir.from_ CIdSpec.all, CNetDir.none, Option.some 5⟩
    ⟨SNetDir.none, CNetDir.from_, Option.some 5⟩ 0 0
    CIdSpec.all ⟨1, Option.some 9, 7, 42⟩ ⟨1, Option.some 8, 7, 43⟩
    (by decide) (by decide) (by decide) (by decide)

/-- C8: registering a component/message pair whose envelope type is
already in the table makes the strict entry point sync_comp fail
(the unwrap panics, modelled as the error branch), while try_sync_comp
returns the configuration error and leaves the app and the table
exactly as they were: no event and no systems are added. -/
theorem C8_duplicate_registration_duality (app : AppModel)
    (table : MsgTable) (tyT tyM : String)
    (h : table.regs.contains (netCompMsgKey tyM) = true) :
    sync_comp app table tyT tyM =
      Except.error MsgRegError.typeAlreadyRegistered ∧
    try_sync_comp app table tyT tyM =
      (app, table, Option.some MsgRegError.typeAlreadyRegistered) := by
  have hm : netCompMsgKey tyM ∈ table.regs := by simpa using h
  unfold sync_comp try_sync_comp MsgTable.register
  simp [hm]

/-- Witness for C8_duplicate_registration_duality at a concrete input. -/
theorem C8_duplicate_registration_duality_witness :
    sync_comp ⟨[], []⟩ ⟨["NetCompMsg<Foo>"]⟩ "Bar" "Foo" =
      Except.error MsgRegError.typeAlreadyRegistered ∧
    try_sync_comp ⟨[], []⟩ ⟨["NetCompMsg<Foo>"]⟩ "Bar" "Foo" =
      (⟨[], []⟩, ⟨["NetCompMsg<Foo>"]⟩,
        Option.some MsgRegError.typeAlreadyRegistered) := by
  exact C8_duplicate_registration_duality ⟨[], []⟩ ⟨["NetCompMsg<Foo>"]⟩
    "Bar" "Foo" (by decide)

/-- C9: the provided network-able conversions are mutual inverses: the
round trip through NetVisibility, NetEulerRot and NetName is the
identity on Visibility, EulerRot and Name respectively. -/
theorem C9_codec_round_trip :
    (∀ v : Visibility,
      Visibility.ofNetVisibility (NetVisibility.ofVisibility v) = v) ∧
    (∀ r : EulerRot,
      EulerRot.ofNetEulerRot (NetEulerRot.ofEulerRot r) = r) ∧
    (∀ n : Name, Name.ofNetName (NetName.ofName n) = n) := by
  refine ⟨fun v => ?_, fun r => ?_, fun n => rfl⟩
  · cases v <;> rfl
  · cases r <;> rfl

/-- C10: on a record that has never applied an update (last_applied
absent) the comparison floor starts at 0 and timestamped candidates are
accepted only if strictly greater, so a winner of get_latest_msg never
carries send_time 0. -/
theorem C10_zero_time_never_wins_fresh {M : Type}
    (msgs : List (NetMsg M)) (spec : CIdSpec) (id : Nat) (m : NetMsg M)
    (h : get_latest_msg msgs Option.none spec id = Option.some m) :
    m.time ≠ Option.some 0 := by
  intro ht
  have := get_latest_msg_time_pos msgs Option.none spec id m 0 h ht
  simp at this

/-- Witness for C10_zero_time_never_wins_fresh at a concrete input. -/
theorem C10_zero_time_never_wins_fresh_witness :
    (⟨1, Option.some 5, 7, 42⟩ : NetMsg Nat).time ≠ Option.some 0 := by
  exact C10_zero_time_never_wins_fresh [⟨1, Option.some 5, 7, 42⟩]
    CIdSpec.all 7 ⟨1, Option.some 5, 7, 42⟩ (by decide)

/-- C3: for a batch containing only timestamp-less updates that all
match the entity and the acceptance filter, comp_recv applies the
payload of the last entry in batch order, irrespective of the record's
current last_applied, in the server role and in the client role. -/
theorem C3_timestampless_last_write_wins {T M : Type} (into : M → T)
    (msgs : List (NetMsg M)) (net_e : NetEntity) (net_cS net_cC : NetComp)
    (compS compC : T) (spec : CIdSpec) (lastMsg : NetMsg M)
    (hall : ∀ m ∈ msgs, m.time = Option.none ∧
      spec.matches m.cid = true ∧ m.id = net_e.id)
    (hS : net_cS.s_dir.from? = Option.some spec)
    (hC : net_cC.c_dir = CNetDir.from_)
    (hlast : msgs.getLast? = Option.some lastMsg) :
    (comp_recv_server_entity into msgs net_e net_cS compS).2.1 =
      into lastMsg.msg ∧
    (comp_recv_client_entity into msgs net_e net_cC compC).2 =
      into lastMsg.msg := by
  have hglmS : get_latest_msg msgs net_cS.last spec net_e.id =
      Option.some lastMsg :=
    get_latest_msg_all_none msgs net_cS.last spec net_e.id lastMsg hall hlast
  have hglmC : get_latest_msg msgs net_cC.last CIdSpec.all net_e.id =
      Option.some lastMsg :=
    get_latest_msg_all_none msgs net_cC.last CIdSpec.all net_e.id lastMsg
      (fun m hm => ⟨(hall m hm).1, rfl, (hall m hm).2.2⟩) hlast
  have hfid : msgs.filter (fun m => m.id == net_e.id) = msgs := by
    apply List.filter_eq_self.mpr
    intro a ha
    simp [(hall a ha).2.2]
  constructor
  · unfold comp_recv_server_entity
    simp only [hS, hglmS]
    split
    · split <;> rfl
    · rfl
  · unfold comp_recv_client_entity
    simp only [hC, if_true]
    simp only [hglmC, hfid, hlast]

/-- Witness for C3_timestampless_last_write_wins at a concrete input. -/
theorem C3_timestampless_last_write_wins_witness :
    (comp_recv_server_entity (fun (m : Nat) => m)
        [⟨1, Option.none, 7, 10⟩, ⟨2, Option.none, 7, 20⟩] ⟨7⟩
        ⟨SNetDir.from_ CIdSpec.all, CNetDir.none, Option.some 99⟩ 0).2.1 =
      20 ∧
    (comp_recv_client_entity (fun (m : Nat) => m)
        [⟨1, Option.none, 7, 10⟩, ⟨2, Option.none, 7, 20⟩] ⟨7⟩
        ⟨SNetDir.none, CNetDir.from_, Option.some 99⟩ 0).2 = 20 := by
  exact C3_timestampless_last_write_wins (fun (m : Nat) => m)
    [⟨1, Option.none, 7, 10⟩, ⟨2, Option.none, 7, 20⟩] ⟨7⟩
    ⟨SNetDir.from_ CIdSpec.all, CNetDir.none, Option.some 99⟩
    ⟨SNetDir.none, CNetDir.from_, Option.some 99⟩ 0 0
    CIdSpec.all ⟨2, Option.none, 7, 20⟩ (by decide) (by decide) (by decide)
    (by decide)

/-- C5: filter exclusivity as noninterference: removing every batch
entry whose sender fails the record's configured acceptance filter
(the from() spec in the server role, the All spec in the client role)
does not change the outcome of the per-entity inbound step: the final
component value, the record and the event trace are identical. -/
theorem C5_filter_noninterference {T M : Type} (into : M → T)
    (msgs : List (NetMsg M)) (net_e : NetEntity) (net_cS net_cC : NetComp)
    (compS compC : T) (spec : CIdSpec)
    (hS : net_cS.s_dir.from? = Option.some spec) :
    comp_recv_server_entity into msgs net_e net_cS compS =
      comp_recv_server_entity into
        (msgs.filter (fun m => spec.matches m.cid)) net_e net_cS compS ∧
    comp_recv_client_entity into msgs net_e net_cC compC =
      comp_recv_client_entity into
        (msgs.filter (fun m => CIdSpec.all.matches m.cid)) net_e net_cC
        compC := by
  constructor
  · unfold comp_recv_server_entity
    simp only [hS, get_latest_msg_filter_spec]
  · have : msgs.filter (fun m => CIdSpec.all.matches m.cid) = msgs := by
      apply List.filter_eq_self.mpr
      intro a _
      rfl
    rw [this]

/-- Witness for C5_filter_noninterference at a concrete input. -/
theorem C5_filter_noninterference_witness :
    comp_recv_server_entity (fun (m : Nat) => m)
        [⟨2, Option.some 9, 7, 50⟩, ⟨1, Option.some 4, 7, 30⟩] ⟨7⟩
        ⟨SNetDir.from_ (CIdSpec.exceptIds [2]), CNetDir.none, Option.none⟩ 0 =
      comp_recv_server_entity (fun (m : Nat) => m)
        ([⟨2, Option.some 9, 7, 50⟩, ⟨1, Option.some 4, 7, 30⟩].filter
          (fun m => (CIdSpec.exceptIds [2]).matches m.cid)) ⟨7⟩
        ⟨SNetDir.from_ (CIdSpec.exceptIds [2]), CNetDir.none, Option.none⟩ 0 ∧
    comp_recv_client_entity (fun (m : Nat) => m)
        [⟨2, Option.some 9, 7, 50⟩, ⟨1, Option.some 4, 7, 30⟩] ⟨7⟩
        ⟨SNetDir.none, CNetDir.from_, Option.none⟩ 0 =
      comp_recv_client_entity (fun (m : Nat) => m)
        ([⟨2, Option.some 9, 7, 50⟩, ⟨1, Option.some 4, 7, 30⟩].filter
          (fun m => CIdSpec.all.matches m.cid)) ⟨7⟩
        ⟨SNetDir.none, CNetDir.from_, Option.none⟩ 0 := by
  exact C5_filter_noninterference (fun (m : Nat) => m)
    [⟨2, Option.some 9, 7, 50⟩, ⟨1, Option.some 4, 7, 30⟩] ⟨7⟩
    ⟨SNetDir.from_ (CIdSpec.exceptIds [2]), CNetDir.none, Option.none⟩
    ⟨SNetDir.none, CNetDir.from_, Option.none⟩ 0 0
    (CIdSpec.exceptIds [2]) (by decide)

/-- C7 counterexample: for entity 7 with policy ToFrom(All, All) and an
applicable update in the batch, the inbound step's event trace is the
apply followed by the warning, so the diagnostic is not emitted before
applying; and over two ticks the warning is emitted twice for the same
entity, not one time per entity. -/
theorem C7_counterexample_warn_after_apply_and_per_tick :
    (comp_recv_server_entity (fun (m : Nat) => m) [⟨1, Option.some 1, 7, 42⟩]
        ⟨7⟩ ⟨SNetDir.toFrom CIdSpec.all CIdSpec.all, CNetDir.none,
          Option.none⟩ 0).2.2 =
      [RecvEvent.applied ⟨1, Option.some 1, 7, 42⟩,
        RecvEvent.warnOverlap 7] ∧
    (comp_recv_server_ticks (fun (m : Nat) => m) ⟨7⟩
        [[⟨1, Option.some 1, 7, 42⟩], [⟨1, Option.some 2, 7, 43⟩]]
        (⟨SNetDir.toFrom CIdSpec.all CIdSpec.all, CNetDir.none,
          Option.none⟩, 0, [])).2.2.countP RecvEvent.isWarn = 2 := by
  exact ⟨by decide, by decide⟩

/-- C7 amended: for a record whose policy is ToFrom with overlapping
specs, every invocation of the inbound per-entity step emits the
non-fatal diagnostic exactly once for the entity, as the last event
(hence after, not before, applying any selected update), and the record
keeps operating: the selected update is still applied as usual and an
empty selection leaves the record and component untouched. -/
theorem C7_warn_once_per_tick_after_apply {T M : Type} (into : M → T)
    (msgs : List (NetMsg M)) (net_e : NetEntity) (net_c : NetComp)
    (comp : T) (a b : CIdSpec)
    (hdir : net_c.s_dir = SNetDir.toFrom a b)
    (hov : a.overlaps b = true) :
    (comp_recv_server_entity into msgs net_e net_c comp).2.2.countP
        RecvEvent.isWarn = 1 ∧
    (comp_recv_server_entity into msgs net_e net_c comp).2.2.getLast? =
      Option.some (RecvEvent.warnOverlap net_e.id) ∧
    (∀ vm, get_latest_msg msgs net_c.last b net_e.id = Option.some vm →
      (comp_recv_server_entity into msgs net_e net_c comp).2.1 =
          into vm.msg ∧
        (comp_recv_server_entity into msgs net_e net_c comp).1.last =
          vm.time) ∧
    (get_latest_msg msgs net_c.last b net_e.id = Option.none →
      comp_recv_server_entity into msgs net_e net_c comp =
        (net_c, comp, [RecvEvent.warnOverlap net_e.id])) := by
  have hfrom : net_c.s_dir.from? = Option.some b := by rw [hdir]; rfl
  unfold comp_recv_server_entity
  rw [hfrom, hdir]
  simp only [hov, if_true]
  cases hg : get_latest_msg msgs net_c.last b net_e.id with
  | none =>
    refine ⟨rfl, rfl, ?_, ?_⟩
    · intro vm hvm
      exact absurd hvm (by simp)
    · intro _
      rfl
  | some vm =>
    refine ⟨by simp [RecvEvent.isWarn], by simp, ?_, ?_⟩
    · intro vm' hvm'
      cases hvm'
      exact ⟨rfl, rfl⟩
    · intro hnone
      exact absurd hnone (by simp)

/-- Accumulating appends over a list is the flattened map. -/
theorem foldl_append_sends {α β : Type} (f : α → List β) (l : List α) :
    ∀ acc : List β, l.foldl (fun acc e => acc ++ f e) acc =
      acc ++ (l.map f).flatten := by
  induction l with
  | nil => intro acc; simp
  | cons x xs ih => intro acc; simp [ih, List.append_assoc]

/-- With a non-empty signal queue, the server branch of send_on_event
sends each queried entity's fan-out and leaves the queue empty. -/
theorem send_on_event_server_eq {T M : Type} (intoM : T → M)
    (events : List Unit) (connected : List Nat)
    (q : List (NetEntity × NetComp × T)) (hev : events ≠ []) :
    send_on_event_server intoM events connected q =
      ((q.map (event_sends intoM connected)).flatten, []) := by
  unfold send_on_event_server
  have hlen : (events.length == 0) = false := by
    cases events with
    | nil => exact absurd rfl hev
    | cons x xs => rfl
  rw [hlen]
  have hstep : (fun (acc : List (Envelope M)) (e : NetEntity × NetComp × T) =>
      match e.2.1.s_dir.to? with
      | Option.some to_spec =>
        acc ++ send_spec connected to_spec e.1.id (intoM e.2.2)
      | Option.none => acc) =
      fun acc e => acc ++ event_sends intoM connected e := by
    funext acc e
    unfold event_sends
    cases e.2.1.s_dir.to? <;> simp
  simp only [Bool.false_eq_true, if_false, hstep, foldl_append_sends,
    List.nil_append]

/-- With a non-empty signal queue, the client branch of send_on_event
sends each To-directed entity's envelope and leaves the queue empty. -/
theorem send_on_event_client_eq {T M : Type} (intoM : T → M)
    (events : List Unit) (q : List (NetEntity × NetComp × T))
    (hev : events ≠ []) :
    send_on_event_client intoM events q =
      ((q.map (event_sends_client intoM)).flatten, []) := by
  unfold send_on_event_client
  have hlen : (events.length == 0) = false := by
    cases events with
    | nil => exact absurd rfl hev
    | cons x xs => rfl
  rw [hlen]
  have hstep : (fun (acc : List (Nat × M)) (e : NetEntity × NetComp × T) =>
      match e.2.1.c_dir with
      | CNetDir.to => acc ++ [(e.1.id, intoM e.2.2)]
      | _ => acc) =
      fun acc e => acc ++ event_sends_client intoM e := by
    funext acc e
    unfold event_sends_client
    cases e.2.1.c_dir <;> simp
  simp only [Bool.false_eq_true, if_false, hstep, foldl_append_sends,
    List.nil_append]

/-- The fan-out for one entity holds exactly one envelope for a
connected recipient accepted by the to() spec, and none for any other
recipient. -/
theorem countP_send_spec_self {M : Type} (connected : List Nat)
    (ts : CIdSpec) (eid : Nat) (msg : M) (cid : Nat)
    (hcon : connected.Nodup) :
    (send_spec connected ts eid msg).countP
        (fun env => env.cid == cid && env.id == eid) =
      if cid ∈ connected ∧ ts.matches cid = true then 1 else 0 := by
  unfold send_spec
  rw [List.countP_map]
  have hp : ((fun (env : Envelope M) => env.cid == cid && env.id == eid) ∘
      fun cid => (⟨cid, eid, msg⟩ : Envelope M)) = fun c => c == cid := by
    funext c
    simp
  rw [hp]
  have hcount :
      (connected.filter (fun cid => ts.matches cid)).countP
        (fun c => c == cid) =
      (connected.filter (fun cid => ts.matches cid)).count cid := rfl
  rw [hcount]
  by_cases hmem : cid ∈ connected ∧ ts.matches cid = true
  · rw [if_pos hmem]
    exact List.count_eq_one_of_mem (hcon.filter _)
      (List.mem_filter.mpr ⟨hmem.1, hmem.2⟩)
  · rw [if_neg hmem]
    apply List.count_eq_zero_of_not_mem
    intro hin
    exact hmem ⟨(List.mem_filter.mp hin).1, (List.mem_filter.mp hin).2⟩

/-- A different entity's fan-out contributes no envelope counted for
this entity id. -/
theorem countP_event_sends_ne {T M : Type} (intoM : T → M)
    (connected : List Nat) (e : NetEntity × NetComp × T) (cid n : Nat)
    (hne : e.1.id ≠ n) :
    (event_sends intoM connected e).countP
        (fun env => env.cid == cid && env.id == n) = 0 := by
  unfold event_sends
  cases e.2.1.s_dir.to? with
  | none => rfl
  | some ts =>
    apply List.countP_eq_zero.mpr
    intro env henv
    unfold send_spec at henv
    obtain ⟨c, -, rfl⟩ := List.mem_map.mp henv
    simp [hne]

/-- A different entity contributes no client envelope counted for this
entity id. -/
theorem countP_event_sends_client_ne {T M : Type} (intoM : T → M)
    (e : NetEntity × NetComp × T) (n : Nat) (hne : e.1.id ≠ n) :
    (event_sends_client intoM e).countP (fun s => s.1 == n) = 0 := by
  unfold event_sends_client
  cases e.2.1.c_dir <;> simp [hne]

/-- Over a query with pairwise distinct entity ids, the flattened
server fan-outs hold exactly one envelope per accepted connected
recipient for a given entity with a to() spec. -/
theorem countP_resync_sends {T M : Type} (intoM : T → M)
    (connected : List Nat) (q : List (NetEntity × NetComp × T))
    (net_e : NetEntity) (net_c : NetComp) (comp : T) (to_spec : CIdSpec)
    (cid : Nat)
    (hmem : (net_e, net_c, comp) ∈ q)
    (hids : (q.map (fun e => e.1.id)).Nodup)
    (hto : net_c.s_dir.to? = Option.some to_spec)
    (hcon : connected.Nodup) :
    ((q.map (event_sends intoM connected)).flatten).countP
        (fun env => env.cid == cid && env.id == net_e.id) =
      if cid ∈ connected ∧ to_spec.matches cid = true then 1 else 0 := by
  induction q with
  | nil => exact absurd hmem (List.not_mem_nil _)
  | cons x xs ih =>
    rw [List.map_cons, List.flatten_cons, List.countP_append]
    rw [List.map_cons, List.nodup_cons] at hids
    rcases List.mem_cons.mp hmem with heq | hmemx
    · have h2 : ((xs.map (event_sends intoM connected)).flatten).countP
          (fun env => env.cid == cid && env.id == net_e.id) = 0 := by
        rw [List.countP_flatten, List.map_map]
        apply List.sum_eq_zero
        intro y hy
        obtain ⟨e', he', rfl⟩ := List.mem_map.mp hy
        apply countP_event_sends_ne
        intro hid
        apply hids.1
        rw [← heq]
        exact hid ▸ List.mem_map.mpr ⟨e', he', rfl⟩
      rw [h2, ← heq]
      have h1 : event_sends intoM connected (net_e, net_c, comp) =
          send_spec connected to_spec net_e.id (intoM comp) := by
        unfold event_sends
        rw [hto]
      rw [h1, countP_send_spec_self connected to_spec net_e.id
        (intoM comp) cid hcon]
      omega
    · have hxne : x.1.id ≠ net_e.id := by
        intro h
        apply hids.1
        exact h ▸ List.mem_map.mpr ⟨_, hmemx, rfl⟩
      rw [countP_event_sends_ne intoM connected x cid net_e.id hxne]
      rw [ih hmemx hids.2]
      omega

/-- Over a query with pairwise distinct entity ids, the flattened
client sends hold exactly one envelope for a given To-directed entity
and none for a differently directed one. -/
theorem countP_resync_sends_client {T M : Type} (intoM : T → M)
    (q : List (NetEntity × NetComp × T)) (net_e : NetEntity)
    (net_c : NetComp) (comp : T)
    (hmem : (net_e, net_c, comp) ∈ q)
    (hids : (q.map (fun e => e.1.id)).Nodup) :
    ((q.map (event_sends_client intoM)).flatten).countP
        (fun s => s.1 == net_e.id) =
      if net_c.c_dir = CNetDir.to then 1 else 0 := by
  induction q with
  | nil => exact absurd hmem (List.not_mem_nil _)
  | cons x xs ih =>
    rw [List.map_cons, List.flatten_cons, List.countP_append]
    rw [List.map_cons, List.nodup_cons] at hids
    rcases List.mem_cons.mp hmem with heq | hmemx
    · have h2 : ((xs.map (event_sends_client intoM)).flatten).countP
          (fun s => s.1 == net_e.id) = 0 := by
        rw [List.countP_flatten, List.map_map]
        apply List.sum_eq_zero
        intro y hy
        obtain ⟨e', he', rfl⟩ := List.mem_map.mp hy
        apply countP_event_sends_client_ne
        intro hid
        apply hids.1
        rw [← heq]
        exact hid ▸ List.mem_map.mpr ⟨e', he', rfl⟩
      rw [h2, ← heq]
      unfold event_sends_client
      cases hc : net_c.c_dir <;> simp [hc]
    · have hxne : x.1.id ≠ net_e.id := by
        intro h
        apply hids.1
        exact h ▸ List.mem_map.mpr ⟨_, hmemx, rfl⟩
      rw [countP_event_sends_client_ne intoM x net_e.id hxne]
      rw [ih hmemx hids.2]
      omega

/-- Witness for C7_warn_once_per_tick_after_apply at a concrete
input. -/
theorem C7_warn_once_per_tick_after_apply_witness :
    (comp_recv_server_entity (fun (m : Nat) => m) [⟨1, Option.some 1, 7, 42⟩]
        ⟨7⟩ ⟨SNetDir.toFrom CIdSpec.all CIdSpec.all, CNetDir.none,
          Option.none⟩ 0).2.2.countP RecvEvent.isWarn = 1 ∧
    (comp_recv_server_entity (fun (m : Nat) => m) [⟨1, Option.some 1, 7, 42⟩]
        ⟨7⟩ ⟨SNetDir.toFrom CIdSpec.all CIdSpec.all, CNetDir.none,
          Option.none⟩ 0).2.2.getLast? =
      Option.some (RecvEvent.warnOverlap 7) ∧
    (∀ vm, get_latest_msg [⟨1, Option.some 1, 7, 42⟩] Option.none
        CIdSpec.all 7 = Option.some vm →
      (comp_recv_server_entity (fun (m : Nat) => m)
          [⟨1, Option.some 1, 7, 42⟩] ⟨7⟩
          ⟨SNetDir.toFrom CIdSpec.all CIdSpec.all, CNetDir.none,
            Option.none⟩ 0).2.1 = vm.msg ∧
        (comp_recv_server_entity (fun (m : Nat) => m)
            [⟨1, Option.some 1, 7, 42⟩] ⟨7⟩
            ⟨SNetDir.toFrom CIdSpec.all CIdSpec.all, CNetDir.none,
              Option.none⟩ 0).1.last = vm.time) ∧
    (get_latest_msg [⟨1, Option.some 1, 7, 42⟩] Option.none
        CIdSpec.all 7 = Option.none →
      comp_recv_server_entity (fun (m : Nat) => m)
          [⟨1, Option.some 1, 7, 42⟩] ⟨7⟩
          ⟨SNetDir.toFrom CIdSpec.all CIdSpec.all, CNetDir.none,
            Option.none⟩ 0 =
        (⟨SNetDir.toFrom CIdSpec.all CIdSpec.all, CNetDir.none,
          Option.none⟩, 0, [RecvEvent.warnOverlap 7])) := by
  exact C7_warn_once_per_tick_after_apply (fun (m : Nat) => m)
    [⟨1, Option.some 1, 7, 42⟩] ⟨7⟩
    ⟨SNetDir.toFrom CIdSpec.all CIdSpec.all, CNetDir.none, Option.none⟩ 0
    CIdSpec.all CIdSpec.all rfl (by decide)

/-- C6: firing a forced-resync signal with no subsequent mutation makes
send_on_event send exactly one envelope per eligible recipient for that
tick (in the server role one per accepted connected peer for each
to()-directed entity; in the client role one to the authority for each
To-directed entity), the queue is emptied by the read, and a tick whose
queue holds no new signal sends nothing. -/
theorem C6_forced_resync_idempotent {T M : Type} (intoM : T → M)
    (events : List Unit) (connected : List Nat)
    (qs qc : List (NetEntity × NetComp × T))
    (net_es net_ec : NetEntity) (net_cs net_cc : NetComp)
    (comps compc : T) (to_spec : CIdSpec) (cid : Nat)
    (hev : events ≠ [])
    (hmemS : (net_es, net_cs, comps) ∈ qs)
    (hidsS : (qs.map (fun e => e.1.id)).Nodup)
    (hto : net_cs.s_dir.to? = Option.some to_spec)
    (hcon : connected.Nodup)
    (hmemC : (net_ec, net_cc, compc) ∈ qc)
    (hidsC : (qc.map (fun e => e.1.id)).Nodup) :
    ((send_on_event_server intoM events connected qs).1.countP
        (fun env => env.cid == cid && env.id == net_es.id) =
      if cid ∈ connected ∧ to_spec.matches cid = true then 1 else 0) ∧
    (send_on_event_server intoM events connected qs).2 = [] ∧
    send_on_event_server intoM [] connected qs = ([], []) ∧
    ((send_on_event_client intoM events qc).1.countP
        (fun s => s.1 == net_ec.id) =
      if net_cc.c_dir = CNetDir.to then 1 else 0) ∧
    (send_on_event_client intoM events qc).2 = [] ∧
    send_on_event_client intoM [] qc = ([], []) := by
  rw [send_on_event_server_eq intoM events connected qs hev,
    send_on_event_client_eq intoM events qc hev]
  refine ⟨?_, rfl, rfl, ?_, rfl, rfl⟩
  · exact countP_resync_sends intoM connected qs net_es net_cs comps
      to_spec cid hmemS hidsS hto hcon
  · exact countP_resync_sends_client intoM qc net_ec net_cc compc
      hmemC hidsC

/-- Witness for C6_forced_resync_idempotent at a concrete input. -/
theorem C6_forced_resync_idempotent_witness :
    ((send_on_event_server (fun (t : Nat) => t) [()] [1, 2, 3]
        [(⟨7⟩, ⟨SNetDir.to (CIdSpec.exceptIds [2]), CNetDir.none,
          Option.none⟩, 5)]).1.countP
        (fun env => env.cid == 1 && env.id == 7) =
      if (1 : Nat) ∈ [1, 2, 3] ∧
          (CIdSpec.exceptIds [2]).matches 1 = true then 1 else 0) ∧
    (send_on_event_server (fun (t : Nat) => t) [()] [1, 2, 3]
        [(⟨7⟩, ⟨SNetDir.to (CIdSpec.exceptIds [2]), CNetDir.none,
          Option.none⟩, 5)]).2 = [] ∧
    send_on_event_server (fun (t : Nat) => t) [] [1, 2, 3]
        [(⟨7⟩, ⟨SNetDir.to (CIdSpec.exceptIds [2]), CNetDir.none,
          Option.none⟩, 5)] = ([], []) ∧
    ((send_on_event_client (fun (t : Nat) => t) [()]
        [(⟨9⟩, ⟨SNetDir.none, CNetDir.to, Option.none⟩, 4)]).1.countP
        (fun s => s.1 == 9) =
      if (⟨SNetDir.none, CNetDir.to, Option.none⟩ : NetComp).c_dir =
          CNetDir.to then 1 else 0) ∧
    (send_on_event_client (fun (t : Nat) => t) [()]
        [(⟨9⟩, ⟨SNetDir.none, CNetDir.to, Option.none⟩, 4)]).2 = [] ∧
    send_on_event_client (fun (t : Nat) => t) []
        [(⟨9⟩, ⟨SNetDir.none, CNetDir.to, Option.none⟩, 4)] =
      ([], []) := by
  exact C6_forced_resync_idempotent (fun (t : Nat) => t) [()] [1, 2, 3]
    [(⟨7⟩, ⟨SNetDir.to (CIdSpec.exceptIds [2]), CNetDir.none,
      Option.none⟩, 5)]
    [(⟨9⟩, ⟨SNetDir.none, CNetDir.to, Option.none⟩, 4)]
    ⟨7⟩ ⟨9⟩ ⟨SNetDir.to (CIdSpec.exceptIds [2]), CNetDir.none, Option.none⟩
    ⟨SNetDir.none, CNetDir.to, Option.none⟩ 5 4
    (CIdSpec.exceptIds [2]) 1 (by decide) (by decide) (by decide)
    (by decide) (by decide) (by decide) (by decide)

end BevyPigeon
